import Mathlib

/-!
Shallow embedding of the signal-processing and playback core of the
SomeEyeTrackingThing repository, together with theorems checking the
specification claims against it.

Conventions of the embedding:
* JavaScript numbers are modelled as exact rationals; timestamps as integers.
  The only place where IEEE special values (Infinity and NaN) are observable
  is the calibration mapping, where a division by zero can occur; there we
  use an explicit JavaScript-number type JsNum.
* JavaScript array iteration is modelled by structural recursion or by maps
  over index ranges, mirroring the loop bounds of the source.
* Array.prototype.sort with comparator on ts is a stable sort; it is
  embedded as a stable insertion sort on the ts key.
* The falsy-coalescing idiom c || d (which replaces both undefined and 0)
  and the nullish idiom c ?? d (which replaces only undefined) are embedded
  by two distinct helper functions.
-/

namespace EyeTracking

/-- Wire-format data point of the client and the points route:
{ ts: number; x: number; confidence?: number }. -/
structure Point where
  ts : ℤ
  x : ℚ
  confidence : Option ℚ
deriving DecidableEq, Repr

/-- Placeholder value used to total out-of-range list indexing; every use in
this file is guarded by an index bound. -/
def dummyPoint : Point := ⟨0, 0, none⟩

/-- Embedding of clamp(v, lo, hi) = Math.max(lo, Math.min(hi, v)) from
EyeTracker.tsx. -/
def clamp (v lo hi : ℚ) : ℚ := max lo (min hi v)

/-- Embedding of the nullish idiom p.confidence ?? 1 from processor.ts. -/
def confNullish1 (c : Option ℚ) : ℚ := c.getD 1

/-- Embedding of the falsy idiom point.confidence || 1.0 from points.ts:
undefined and 0 both fall back to 1. -/
def confFalsy1 (c : Option ℚ) : ℚ :=
  match c with
  | none => 1
  | some v => if v = 0 then 1 else v

/-- Embedding of point.confidence || null from the points route insertion:
a 0 confidence is stored as null. -/
def confFalsyNull (c : Option ℚ) : Option ℚ :=
  match c with
  | none => none
  | some v => if v = 0 then none else some v

/-! ### server/src/signal/processor.ts -/

namespace Processor

/-- ProcessedPoint record of processor.ts. -/
structure ProcessedPoint where
  ts : ℤ
  raw : ℚ
  filtered : ℚ
  confidence : Option ℚ
  isOutlier : Bool
  quality : ℚ
deriving DecidableEq, Repr

/-- Placeholder ProcessedPoint for guarded out-of-range indexing. -/
def dummyProcessed : ProcessedPoint := ⟨0, 0, 0, none, false, 0⟩

/-- Stable insertion step for sorting by ts: the new element is placed before
the first element whose ts is not smaller, so elements that compare equal
keep their original relative order.  This embeds the stability guarantee of
Array.prototype.sort with comparator (a, b) => a.ts - b.ts. -/
def insertByTs (p : Point) : List Point → List Point
  | [] => [p]
  | q :: rest => if q.ts < p.ts then q :: insertByTs p rest else p :: q :: rest

/-- Stable sort by ts, embedding [...points].sort((a, b) => a.ts - b.ts). -/
def sortByTs : List Point → List Point
  | [] => []
  | p :: rest => insertByTs p (sortByTs rest)

/-- Embedding of movingAverage from processor.ts: centered moving average
whose window [max(0, i - half), min(n, i + half + 1)) shrinks at the edges.
MOVING_AVG = 5. -/
def movingAverage (xs : List ℚ) (k : ℕ := 5) : List ℚ :=
  (List.range xs.length).map fun i =>
    let half := k / 2
    let s := i - half
    let e := min xs.length (i + half + 1)
    let win := (xs.drop s).take (e - s)
    win.sum / (win.length : ℚ)

/-- Embedding of processAligned from processor.ts: sort by ts, clamp raw x to
[-1, 1], smooth with the moving average, then confidence-gate: a sample with
confidence below 0.1 is marked as outlier and receives the smoothed value of
the previous index (its own smoothed value at index 0). -/
def processAligned (points : List Point) : List ProcessedPoint :=
  if points = [] then []
  else
    let sorted := (sortByTs points).map fun p => { p with x := clamp p.x (-1) 1 }
    let smoothed := movingAverage (sorted.map (·.x))
    sorted.enum.map fun ip =>
      let i := ip.1
      let p := ip.2
      let isLowConfidence := confNullish1 p.confidence < 1/10
      let filtered :=
        if isLowConfidence then
          (if 0 < i then smoothed.getD (i - 1) 0 else smoothed.getD i 0)
        else smoothed.getD i 0
      { ts := p.ts, raw := p.x, filtered := filtered, confidence := p.confidence,
        isOutlier := decide isLowConfidence, quality := confNullish1 p.confidence }

end Processor

/-! ### SignalProcessor from server/src/routes/points.ts -/

namespace SignalProcessor

/-- Embedding of SignalProcessor.applyMovingAverageFilter: same shrinking
centered window as the processor module, applied to Point records, keeping
ts and confidence of the center sample. -/
def applyMovingAverageFilter (points : List Point) (windowSize : ℕ := 5) : List Point :=
  if points = [] then []
  else
    (List.range points.length).map fun i =>
      let s := i - windowSize / 2
      let e := min points.length (i + windowSize / 2 + 1)
      let win := (points.drop s).take (e - s)
      let average := (win.map (·.x)).sum / (win.length : ℚ)
      { ts := (points.getD i dummyPoint).ts, x := average,
        confidence := (points.getD i dummyPoint).confidence }

/-- Embedding of SignalProcessor.removeOutliers: lists shorter than 3 pass
through; otherwise the first sample is kept, an interior sample is kept only
when both neighbor differences are below the threshold, and the last sample
is kept. OUTLIER_THRESHOLD = 0.1. -/
def removeOutliers (points : List Point) (threshold : ℚ := 1/10) : List Point :=
  if points.length < 3 then points
  else
    let n := points.length
    let interior := ((List.range (n - 2)).map (· + 1)).filterMap fun i =>
      let prev := (points.getD (i - 1) dummyPoint).x
      let curr := (points.getD i dummyPoint).x
      let next := (points.getD (i + 1) dummyPoint).x
      if |curr - prev| < threshold ∧ |curr - next| < threshold
      then some (points.getD i dummyPoint) else none
    [points.getD 0 dummyPoint] ++ interior ++
      (if 1 < n then [points.getD (n - 1) dummyPoint] else [])

/-- Embedding of SignalProcessor.filterByConfidence: keeps the samples whose
falsy-coalesced confidence reaches the minimum. MIN_CONFIDENCE = 0.1. -/
def filterByConfidence (points : List Point) (minConfidence : ℚ := 1/10) : List Point :=
  points.filter fun p => minConfidence ≤ confFalsy1 p.confidence

/-- Embedding of SignalProcessor.normalizeX: clamp to [-1, 1]. -/
def normalizeX (x : ℚ) : ℚ := max (-1) (min 1 x)

/-- Embedding of SignalProcessor.processPoints: confidence filter, outlier
removal, moving average, then normalization. -/
def processPoints (points : List Point) : List Point :=
  if points = [] then []
  else
    let p1 := filterByConfidence points
    let p2 := removeOutliers p1
    let p3 := applyMovingAverageFilter p2
    p3.map fun p => { p with x := normalizeX p.x }

/-- Database row prepared by the POST points handler. -/
structure SampleRow where
  ts : ℤ
  xRaw : ℚ
  xFiltered : ℚ
  confidence : Option ℚ
deriving DecidableEq, Repr

/-- Embedding of the samplesData mapping of the POST points handler: every
stored row takes both xRaw and xFiltered from the processed value. -/
def samplesData (points : List Point) : List SampleRow :=
  (processPoints points).map fun p =>
    { ts := p.ts, xRaw := p.x, xFiltered := p.x,
      confidence := confFalsyNull p.confidence }

end SignalProcessor

/-! ### Calibration mapping from client/src/components/EyeTracker.tsx

The mapping divides by a calibration range that can be zero, so its result is
modelled by a JavaScript-number type with Infinity and NaN. All inputs are
finite; only division can introduce a special value, and the subsequent
addition, Math.min and Math.max propagate it exactly as IEEE 754 does. -/

/-- JavaScript number: a finite rational or one of the special values. -/
inductive JsNum where
  | num : ℚ → JsNum
  | posInf : JsNum
  | negInf : JsNum
  | nan : JsNum
deriving DecidableEq, Repr

namespace JsNum

/-- JavaScript addition restricted to the shapes reachable in the calibration
mapping: finite plus finite, finite plus a special value, and NaN
propagation. -/
def add : JsNum → JsNum → JsNum
  | num a, num b => num (a + b)
  | num _, posInf => posInf
  | num _, negInf => negInf
  | posInf, num _ => posInf
  | negInf, num _ => negInf
  | posInf, posInf => posInf
  | negInf, negInf => negInf
  | posInf, negInf => nan
  | negInf, posInf => nan
  | nan, _ => nan
  | _, nan => nan

/-- JavaScript division for finite operands: a nonzero divisor gives the
exact quotient; a zero divisor gives Infinity with the sign of the dividend,
and NaN when the dividend is zero as well.  Division involving a special
operand does not occur in the embedded code and is sent to NaN. -/
def div : JsNum → JsNum → JsNum
  | num a, num b =>
      if b ≠ 0 then num (a / b)
      else if 0 < a then posInf
      else if a < 0 then negInf
      else nan
  | _, _ => nan

/-- Embedding of Math.min on two arguments: NaN-propagating minimum. -/
def jsMin : JsNum → JsNum → JsNum
  | nan, _ => nan
  | _, nan => nan
  | num a, num b => num (min a b)
  | num a, posInf => num a
  | posInf, num b => num b
  | num _, negInf => negInf
  | negInf, num _ => negInf
  | posInf, posInf => posInf
  | negInf, negInf => negInf
  | posInf, negInf => negInf
  | negInf, posInf => negInf

/-- Embedding of Math.max on two arguments: NaN-propagating maximum. -/
def jsMax : JsNum → JsNum → JsNum
  | nan, _ => nan
  | _, nan => nan
  | num a, num b => num (max a b)
  | num a, negInf => num a
  | negInf, num b => num b
  | num _, posInf => posInf
  | posInf, num _ => posInf
  | posInf, posInf => posInf
  | negInf, negInf => negInf
  | posInf, negInf => posInf
  | negInf, posInf => posInf

end JsNum

namespace EyeTracker

/-- The three per-position calibration reference values (the x components of
calibrationData), present only when all three positions were calibrated. -/
structure CalibrationTriple where
  left : ℚ
  center : ℚ
  right : ℚ
deriving DecidableEq, Repr

/-- Embedding of clamp over JsNum: clamp(v, -1, 1) as used on the calibrated
value. -/
def clampJs (v : JsNum) : JsNum := JsNum.jsMax (JsNum.num (-1)) (JsNum.jsMin (JsNum.num 1) v)

/-- Embedding of getCalibratedEyePosition from EyeTracker.tsx: without a full
calibration the raw value is clamped; otherwise the value is mapped
piecewise-linearly, [left, center] onto [-1, 0] and [center, right] onto
[0, 1], and the result is clamped to [-1, 1]. -/
def getCalibratedEyePosition (calib : Option CalibrationTriple) (rawX : ℚ) : JsNum :=
  match calib with
  | none => JsNum.num (clamp rawX (-1) 1)
  | some c =>
      let calibratedX : JsNum :=
        if rawX ≤ c.center then
          JsNum.add (JsNum.num (-1))
            (JsNum.div (JsNum.num (rawX - c.left)) (JsNum.num (c.center - c.left)))
        else
          JsNum.div (JsNum.num (rawX - c.center)) (JsNum.num (c.right - c.center))
      clampJs calibratedX

/-! ### Transmission batcher from EyeTracker.tsx

State of the upload queue together with the batches of the in-flight
appendPoints attempts.  The events are: the worker message handler
appending freshly filtered points, the 200ms interval callback swapping the
whole (non-empty) queue out for an upload attempt, and the axios rejection
handler of one of the pending attempts putting its failed batch back in
front of the queue.  The interval body is an async callback with a 5 second
axios timeout, so several upload attempts can be pending at once: a later
swap-out can start while an earlier attempt is still in flight, and the
rejection handlers run in whatever order the requests happen to fail, each
prepending its own batch at that moment. -/

/-- Upload-queue state: the pending queue and the batches of the in-flight
upload attempts, in the order they were swapped out. -/
structure BatcherState where
  queue : List Point
  inflight : List (List Point)
deriving DecidableEq, Repr

/-- Events of the transmission batcher; uploadFailed i is the rejection of
the i-th oldest attempt still in flight. -/
inductive BatcherOp where
  | submit : List Point → BatcherOp
  | swapOut : BatcherOp
  | uploadFailed : ℕ → BatcherOp
deriving DecidableEq, Repr

/-- One transition of the batcher.
submit ps embeds setUploadQueue(prev => [...prev, ...filteredPoints]);
swapOut embeds the interval body taking pointsToUpload = [...uploadQueue]
and setUploadQueue([]) when the queue is non-empty, leaving the batch with
the now-pending axios call;
uploadFailed i embeds the rejection handler of the i-th pending attempt
running setUploadQueue(prev => [...pointsToUpload, ...prev]) with its own
batch (an out-of-range i, naming no pending attempt, changes nothing). -/
def batcherStep : BatcherState → BatcherOp → BatcherState
  | s, .submit ps => { s with queue := s.queue ++ ps }
  | s, .swapOut =>
      if s.queue = [] then s else { queue := [], inflight := s.inflight ++ [s.queue] }
  | s, .uploadFailed i =>
      if i < s.inflight.length then
        { queue := s.inflight.getD i [] ++ s.queue, inflight := s.inflight.eraseIdx i }
      else s

/-- Run of the batcher from the initial empty state. -/
def batcherRun (ops : List BatcherOp) : BatcherState :=
  ops.foldl batcherStep ⟨[], []⟩

/-- All samples submitted so far, in submission order. -/
def submittedAll (ops : List BatcherOp) : List Point :=
  ops.foldl (fun acc op => match op with | .submit ps => acc ++ ps | _ => acc) []

/-- Samples currently held by the batcher: the in-flight batches followed by
the pending queue. -/
def heldContent (s : BatcherState) : List Point :=
  s.inflight.flatten ++ s.queue

/-- Samples an event submits: the batch of a submit, nothing otherwise. -/
def submittedOf : BatcherOp → List Point
  | BatcherOp.submit ps => ps
  | _ => []

/-- Guard of the non-overlapping discipline at one event: a swap-out is
allowed only while no attempt is in flight. -/
def swapGuard (s : BatcherState) : BatcherOp → Bool
  | BatcherOp.swapOut => s.inflight.isEmpty
  | _ => true

/-- Discipline under which upload attempts never overlap: every swap-out
happens while no attempt is in flight (each attempt completes, here by
failing, before the next batch is swapped out). -/
def nonOverlapping (s : BatcherState) : List BatcherOp → Bool
  | [] => true
  | op :: rest => swapGuard s op && nonOverlapping (batcherStep s op) rest

end EyeTracker

/-! ### Analytics module (server processing/analytics.ts) -/

namespace Analytics

/-- Sample record of the analytics module; ts is the parsed integer
timestamp (the module parseInts string timestamps on entry). -/
structure Sample where
  ts : ℤ
  xRaw : ℚ
  xFiltered : Option ℚ
  confidence : Option ℚ
deriving DecidableEq, Repr

/-- Velocity entry produced by calculateVelocity. -/
structure VelocityPoint where
  ts : ℤ
  velocity : ℚ
deriving DecidableEq, Repr

/-- Embedding of the idiom (s.xFiltered !== undefined ? s.xFiltered : s.xRaw). -/
def sampleX (s : Sample) : ℚ := s.xFiltered.getD s.xRaw

/-- Loop body of calculateVelocity: walk consecutive pairs, pushing an entry
only when the time delta is positive. -/
def calculateVelocityAux (prev : Sample) : List Sample → List VelocityPoint
  | [] => []
  | curr :: rest =>
      let dt := curr.ts - prev.ts
      (if 0 < dt then [⟨curr.ts, |sampleX curr - sampleX prev| / (dt : ℚ)⟩] else [])
        ++ calculateVelocityAux curr rest

/-- Embedding of calculateVelocity from the analytics module: absolute
position difference over the time delta, for consecutive pairs with positive
delta; zero- and negative-delta pairs produce nothing. -/
def calculateVelocity (samples : List Sample) : List VelocityPoint :=
  if samples.length < 2 then []
  else
    match samples with
    | [] => []
    | p :: rest => calculateVelocityAux p rest

/-- The velocity computation as the specification words it, written
independently for comparison: for consecutive samples the velocity is the
absolute difference of the effective positions (filteredValue when present,
else rawValue) divided by the time delta when that delta is positive, and a
pair with non-positive delta is skipped rather than zero-filled. -/
def velocitySpec (samples : List Sample) : List VelocityPoint :=
  (samples.zip samples.tail).filterMap fun pc =>
    let dt : ℤ := pc.2.ts - pc.1.ts
    if 0 < dt then some ⟨pc.2.ts, |sampleX pc.2 - sampleX pc.1| / (dt : ℚ)⟩ else none

end Analytics

/-! ### Playback from client/src/components/SessionPlayback.tsx -/

namespace Playback

/-- Point of the playback component; ts is the parsed integer timestamp. -/
structure PbPoint where
  ts : ℤ
  x : ℚ
  confidence : Option ℚ
deriving DecidableEq, Repr

/-- Placeholder PbPoint for guarded out-of-range indexing. -/
def dummyPbPoint : PbPoint := ⟨0, 0, none⟩

/-- Result of one 100ms playback interval tick: the new cursor and whether
playback continues. -/
structure TickResult where
  currentTime : ℚ
  isPlaying : Bool
deriving DecidableEq, Repr

/-- Embedding of the playback interval body of SessionPlayback.tsx: the
increment is (actualDuration / 100) * playbackSpeed; a tick reaching the end
timestamp clamps the cursor there and stops playback. -/
def playbackTick (prev speed startTime endTime : ℚ) : TickResult :=
  let actualDuration := endTime - startTime
  let timeIncrement := actualDuration / 100 * speed
  let newTime := prev + timeIncrement
  if endTime ≤ newTime then ⟨endTime, false⟩ else ⟨newTime, true⟩

/-- Scan loop of getCurrentSampleIndex: remaining points paired with their
index k, the best index so far and its distance; an element strictly closer
than the best so far becomes the new best. -/
def scanClosestIdx (t : ℤ) : List PbPoint → ℕ → ℕ × ℤ → ℕ × ℤ
  | [], _, acc => acc
  | p :: rest, k, acc =>
      if |p.ts - t| < acc.2 then scanClosestIdx t rest (k + 1) (k, |p.ts - t|)
      else scanClosestIdx t rest (k + 1) acc

/-- Embedding of getCurrentSampleIndex from SessionPlayback.tsx: index of the
first point whose timestamp distance to currentTime is minimal; 0 for an
empty list. -/
def getCurrentSampleIndex (points : List PbPoint) (currentTime : ℤ) : ℕ :=
  match points with
  | [] => 0
  | p0 :: _ => (scanClosestIdx currentTime points 0 (0, |p0.ts - currentTime|)).1

/-- Scan loop of getCurrentXValue: like scanClosestIdx but tracking the
closest point itself. -/
def scanClosestPt (t : ℤ) : List PbPoint → PbPoint × ℤ → PbPoint × ℤ
  | [], acc => acc
  | p :: rest, acc =>
      if |p.ts - t| < acc.2 then scanClosestPt t rest (p, |p.ts - t|)
      else scanClosestPt t rest acc

/-- Embedding of getCurrentXValue from SessionPlayback.tsx: x of the first
point whose timestamp distance to currentTime is minimal; 0 for an empty
list. -/
def getCurrentXValue (points : List PbPoint) (currentTime : ℤ) : ℚ :=
  match points with
  | [] => 0
  | p0 :: _ => (scanClosestPt currentTime points (p0, |p0.ts - currentTime|)).1.x

end Playback

/-! ### Session deletion and point listing routes

The repository carries two DELETE /sessions/:id implementations: the
registered one (server/src/routes/sessions.ts, also a standalone variant)
refuses to delete a session that has samples, with HTTP status 400, while
another variant deletes the session and relies on the ON DELETE CASCADE
foreign key of the Sample table to delete its samples. -/

namespace SessionsRoute

/-- Session identifier. -/
abbrev SessionId := ℕ

/-- Stored sample row as the routes see it. -/
structure StoredSample where
  ts : ℤ
  xRaw : ℚ
  xFiltered : Option ℚ
  confidence : Option ℚ
deriving DecidableEq, Repr

/-- Persistence store: existing sessions and the sample rows keyed by
session. -/
structure Db where
  sessions : List SessionId
  samples : List (SessionId × StoredSample)
deriving DecidableEq, Repr

/-- Outcome of a DELETE /sessions/:id request. -/
inductive DeleteResult where
  | notFound : DeleteResult
  | refused : ℕ → DeleteResult
  | deleted : Db → DeleteResult
deriving DecidableEq, Repr

/-- Outcome of a GET /sessions/:id/points request (pagination elided; the
claim only concerns presence of rows). -/
inductive ListPointsResult where
  | notFound : ListPointsResult
  | ok : List StoredSample → ListPointsResult
deriving DecidableEq, Repr

/-- Number of sample rows of a session (the _count.samples lookup). -/
def sampleCount (db : Db) (id : SessionId) : ℕ :=
  (db.samples.filter fun r => r.1 = id).length

/-- Deletion of a session row; the schema declares ON DELETE CASCADE on
Sample.sessionId, so the sample rows of the session go away with it. -/
def eraseSession (db : Db) (id : SessionId) : Db :=
  ⟨db.sessions.filter fun s => s ≠ id, db.samples.filter fun r => r.1 ≠ id⟩

/-- Embedding of the registered DELETE route (sessions.ts, also the
standalone forbid variant): 404 when the session is unknown, refusal with
status 400 when it still has samples, deletion otherwise. -/
def deleteSessionForbid (db : Db) (id : SessionId) : DeleteResult :=
  if id ∈ db.sessions then
    if 0 < sampleCount db id then .refused 400
    else .deleted (eraseSession db id)
  else .notFound

/-- Embedding of the cascade DELETE variant: 404 when the session is
unknown, otherwise the session and all its samples are deleted. -/
def deleteSessionCascade (db : Db) (id : SessionId) : DeleteResult :=
  if id ∈ db.sessions then .deleted (eraseSession db id)
  else .notFound

/-- Embedding of the GET points route: 404 when the session is unknown,
otherwise the sample rows of the session. -/
def listPoints (db : Db) (id : SessionId) : ListPointsResult :=
  if id ∈ db.sessions then .ok ((db.samples.filter fun r => r.1 = id).map (·.2))
  else .notFound

end SessionsRoute

/-! ## Theorems -/

section Theorems

open EyeTracker Playback SessionsRoute

lemma clampJs_num (q : ℚ) : clampJs (JsNum.num q) = JsNum.num (max (-1) (min 1 q)) := by
  simp [clampJs, JsNum.jsMin, JsNum.jsMax]

lemma clamp_range (q : ℚ) : -1 ≤ max (-1) (min 1 q) ∧ max (-1) (min 1 q) ≤ 1 :=
  ⟨le_max_left _ _, max_le (by norm_num) (min_le_left _ _)⟩

/-- C2: for every calibration triple with left < center < right, the
piecewise-linear mapping sends left to -1, center to 0 and right to +1
exactly (rational arithmetic is exact, so the floating tolerance is not
needed), and every result is a finite value clamped into [-1, 1]. -/
theorem calibrate_endpoints_and_range (l c r : ℚ) (h1 : l < c) (h2 : c < r) :
    getCalibratedEyePosition (some ⟨l, c, r⟩) l = JsNum.num (-1) ∧
    getCalibratedEyePosition (some ⟨l, c, r⟩) c = JsNum.num 0 ∧
    getCalibratedEyePosition (some ⟨l, c, r⟩) r = JsNum.num 1 ∧
    ∀ raw : ℚ, ∃ q : ℚ, getCalibratedEyePosition (some ⟨l, c, r⟩) raw = JsNum.num q ∧
      -1 ≤ q ∧ q ≤ 1 := by
  have hcl : c - l ≠ 0 := sub_ne_zero.mpr (ne_of_gt h1)
  have hrc : r - c ≠ 0 := sub_ne_zero.mpr (ne_of_gt h2)
  refine ⟨?_, ?_, ?_, ?_⟩
  · simp only [getCalibratedEyePosition, if_pos (le_of_lt h1), JsNum.div, if_pos hcl,
      JsNum.add, clampJs_num]
    norm_num
  · simp only [getCalibratedEyePosition, if_pos (le_refl c), JsNum.div, if_pos hcl,
      JsNum.add, clampJs_num]
    rw [div_self hcl]
    norm_num
  · simp only [getCalibratedEyePosition, if_neg (not_le.mpr h2), JsNum.div, if_pos hrc,
      JsNum.add, clampJs_num]
    rw [div_self hrc]
    norm_num
  · intro raw
    by_cases hb : raw ≤ c
    · refine ⟨max (-1) (min 1 (-1 + (raw - l) / (c - l))), ?_, clamp_range _⟩
      simp [getCalibratedEyePosition, if_pos hb, JsNum.div, if_pos hcl, JsNum.add, clampJs_num]
    · refine ⟨max (-1) (min 1 ((raw - c) / (r - c))), ?_, clamp_range _⟩
      simp [getCalibratedEyePosition, if_neg hb, JsNum.div, if_pos hrc, clampJs_num]

/-- Witness for the calibration endpoint theorem at the triple (0, 1, 2). -/
theorem calibrate_endpoints_and_range_witness :
    (0:ℚ) < 1 ∧ (1:ℚ) < 2 ∧
    (getCalibratedEyePosition (some ⟨0, 1, 2⟩) 0 = JsNum.num (-1) ∧
     getCalibratedEyePosition (some ⟨0, 1, 2⟩) 1 = JsNum.num 0 ∧
     getCalibratedEyePosition (some ⟨0, 1, 2⟩) 2 = JsNum.num 1 ∧
     ∀ raw : ℚ, ∃ q : ℚ, getCalibratedEyePosition (some ⟨0, 1, 2⟩) raw = JsNum.num q ∧
       -1 ≤ q ∧ q ≤ 1) :=
  ⟨by decide, by decide, calibrate_endpoints_and_range 0 1 2 (by decide) (by decide)⟩

/-- C7: with a degenerate calibration (all three reference values equal, as
can happen when the three sampling windows average to the same position),
the mapping evaluates 0/0 at a raw value equal to the collapsed references,
and the NaN survives the clamp, so the code does not return a well-defined
nearer-endpoint value there. -/
theorem calibrate_degenerate_nan :
    getCalibratedEyePosition (some ⟨0, 0, 0⟩) 0 = JsNum.nan ∧
    ∀ q : ℚ, getCalibratedEyePosition (some ⟨0, 0, 0⟩) 0 ≠ JsNum.num q := by
  have h : getCalibratedEyePosition (some ⟨0, 0, 0⟩) 0 = JsNum.nan := by
    simp [getCalibratedEyePosition, JsNum.div, JsNum.add, clampJs, JsNum.jsMin, JsNum.jsMax]
  exact ⟨h, fun q hq => by rw [h] at hq; exact JsNum.noConfusion hq⟩

/-- C8 counterexample: with samples spanning 2000 milliseconds and speed 1,
one tick of the playback interval from cursor 0 advances the cursor by 20
milliseconds, not by tickMs x speedMultiplier = 100. -/
theorem playback_tick_increment_counterexample :
    (playbackTick 0 1 0 2000).currentTime = 20 ∧
    (playbackTick 0 1 0 2000).currentTime ≠ 0 + 100 * 1 := by
  constructor <;> norm_num [playbackTick]

/-- C8 amended: while playing, each 100ms tick advances the cursor by
(lastTimestamp - firstTimestamp) / 100 x speedMultiplier (not by
tickMs x speedMultiplier); the cursor stays in
[firstTimestamp, lastTimestamp], and when the advanced cursor reaches
lastTimestamp it is clamped there and playback auto-stops. -/
theorem playback_tick_amended (prev speed startTime endTime : ℚ)
    (h1 : startTime ≤ prev) (h2 : prev ≤ endTime) (h3 : 0 < speed)
    (h4 : startTime < endTime) :
    startTime ≤ (playbackTick prev speed startTime endTime).currentTime ∧
    (playbackTick prev speed startTime endTime).currentTime ≤ endTime ∧
    ((playbackTick prev speed startTime endTime).isPlaying = false →
      (playbackTick prev speed startTime endTime).currentTime = endTime) ∧
    ((playbackTick prev speed startTime endTime).isPlaying = true →
      (playbackTick prev speed startTime endTime).currentTime
        = prev + (endTime - startTime) / 100 * speed) := by
  have hinc : 0 < (endTime - startTime) / 100 * speed := by
    have h5 : 0 < endTime - startTime := by linarith
    positivity
  unfold playbackTick
  by_cases hend : endTime ≤ prev + (endTime - startTime) / 100 * speed
  · refine ⟨?_, ?_, ?_, ?_⟩ <;> simp only [if_pos hend]
    · exact le_of_lt h4
    · exact le_refl _
    · simp
    · intro h
      exact absurd h (by simp)
  · refine ⟨?_, ?_, ?_, ?_⟩ <;> simp only [if_neg hend]
    · linarith
    · exact le_of_not_le hend
    · intro h
      exact absurd h (by simp)
    · simp

/-- Witness for the amended playback tick theorem: cursor 0, speed 1,
samples spanning [0, 2000]. -/
theorem playback_tick_amended_witness :
    ((0:ℚ) ≤ 0 ∧ (0:ℚ) ≤ 2000 ∧ (0:ℚ) < 1 ∧ (0:ℚ) < 2000) ∧
    (0 ≤ (playbackTick 0 1 0 2000).currentTime ∧
     (playbackTick 0 1 0 2000).currentTime ≤ 2000 ∧
     ((playbackTick 0 1 0 2000).isPlaying = false →
       (playbackTick 0 1 0 2000).currentTime = 2000) ∧
     ((playbackTick 0 1 0 2000).isPlaying = true →
       (playbackTick 0 1 0 2000).currentTime = 0 + (2000 - 0) / 100 * 1)) :=
  ⟨⟨by decide, by decide, by decide, by decide⟩,
   playback_tick_amended 0 1 0 2000 (by decide) (by decide) (by decide) (by decide)⟩

lemma calculateVelocityAux_eq_zip (rest : List Analytics.Sample) :
    ∀ p : Analytics.Sample,
      Analytics.calculateVelocityAux p rest
        = ((p :: rest).zip rest).filterMap fun pc =>
            let dt : ℤ := pc.2.ts - pc.1.ts
            if 0 < dt then
              some ⟨pc.2.ts, |Analytics.sampleX pc.2 - Analytics.sampleX pc.1| / (dt : ℚ)⟩
            else none := by
  induction rest with
  | nil => intro p; rfl
  | cons c rest ih =>
      intro p
      rw [Analytics.calculateVelocityAux, List.zip_cons_cons, List.filterMap_cons, ih c]
      by_cases hdt : 0 < c.ts - p.ts
      · simp only [if_pos hdt]
        rfl
      · simp only [if_neg hdt]
        rfl

/-- C6: calculateVelocity of the analytics module computes exactly the
velocities the specification describes: for each consecutive pair with
positive time delta, the absolute difference of the effective positions
(filteredValue when present, else rawValue) divided by the delta; pairs with
non-positive delta contribute no entry at all. -/
theorem calculateVelocity_eq_spec (samples : List Analytics.Sample) :
    Analytics.calculateVelocity samples = Analytics.velocitySpec samples := by
  match samples with
  | [] => rfl
  | [p] => rfl
  | p :: c :: rest =>
      have hlen : ¬ (p :: c :: rest).length < 2 := by
        simp [List.length_cons]
      rw [Analytics.calculateVelocity, if_neg hlen, Analytics.velocitySpec]
      simpa using calculateVelocityAux_eq_zip (c :: rest) p

lemma flatten_eraseIdx_perm (l : List (List Point)) (i : ℕ) (h : i < l.length)
    (q : List Point) :
    ((l.eraseIdx i).flatten ++ (l.getD i [] ++ q)).Perm (l.flatten ++ q) := by
  have hl : l.flatten = (l.take i).flatten ++ (l.getD i [] ++ (l.drop (i + 1)).flatten) := by
    conv_lhs => rw [← List.take_append_drop i l, List.drop_eq_getElem_cons h]
    rw [List.flatten_append, List.flatten_cons, List.getD_eq_getElem _ _ h]
  have he : (l.eraseIdx i).flatten = (l.take i).flatten ++ (l.drop (i + 1)).flatten := by
    rw [List.eraseIdx_eq_take_drop_succ, List.flatten_append]
  rw [hl, he, List.append_assoc, List.append_assoc]
  refine List.Perm.append_left _ ?_
  rw [← List.append_assoc]
  exact List.Perm.append_right q List.perm_append_comm

lemma batcherStep_held_perm (s : EyeTracker.BatcherState) (op : EyeTracker.BatcherOp) :
    (heldContent (batcherStep s op)).Perm (heldContent s ++ submittedOf op) := by
  match op with
  | .submit ps =>
      simp only [batcherStep, heldContent, submittedOf, List.append_assoc]
      exact List.Perm.refl _
  | .swapOut =>
      by_cases hq : s.queue = []
      · simp only [batcherStep, if_pos hq, submittedOf, List.append_nil]
        exact List.Perm.refl _
      · simp only [batcherStep, if_neg hq, heldContent, submittedOf, List.flatten_append,
          List.flatten_cons, List.flatten_nil, List.append_nil]
        exact List.Perm.refl _
  | .uploadFailed i =>
      by_cases hij : i < s.inflight.length
      · simp only [batcherStep, if_pos hij, heldContent, submittedOf, List.append_nil]
        exact flatten_eraseIdx_perm s.inflight i hij s.queue
      · simp only [batcherStep, if_neg hij, submittedOf, List.append_nil]
        exact List.Perm.refl _

lemma submittedAll_foldl (ops : List EyeTracker.BatcherOp) :
    ∀ a : List Point,
      ops.foldl (fun acc op => match op with | .submit ps => acc ++ ps | _ => acc) a
        = a ++ submittedAll ops := by
  induction ops with
  | nil => intro a; simp [submittedAll]
  | cons op ops ih =>
      intro a
      have hrhs : submittedAll (op :: ops)
          = ops.foldl (fun acc op => match op with | .submit ps => acc ++ ps | _ => acc)
              (match op with | .submit ps => [] ++ ps | _ => ([] : List Point)) := rfl
      rw [List.foldl_cons, ih, hrhs, ih]
      match op with
      | .submit ps => simp [List.append_assoc]
      | .swapOut => simp
      | .uploadFailed i => simp

lemma submittedAll_cons (op : EyeTracker.BatcherOp) (ops : List EyeTracker.BatcherOp) :
    submittedAll (op :: ops) = submittedOf op ++ submittedAll ops := by
  show List.foldl _ _ (op :: ops) = _
  rw [List.foldl_cons, submittedAll_foldl]
  match op with
  | .submit ps => simp [submittedOf]
  | .swapOut => simp [submittedOf]
  | .uploadFailed i => simp [submittedOf]

lemma batcherRun_held_perm_from (ops : List EyeTracker.BatcherOp) :
    ∀ s : EyeTracker.BatcherState,
      (heldContent (ops.foldl batcherStep s)).Perm (heldContent s ++ submittedAll ops) := by
  induction ops with
  | nil =>
      intro s
      simp only [List.foldl_nil, submittedAll, List.append_nil]
      exact List.Perm.refl _
  | cons op ops ih =>
      intro s
      rw [List.foldl_cons, submittedAll_cons, ← List.append_assoc]
      exact (ih (batcherStep s op)).trans
        ((batcherStep_held_perm s op).append_right (submittedAll ops))

lemma batcherStep_held_seq (s : EyeTracker.BatcherState) (op : EyeTracker.BatcherOp)
    (hguard : swapGuard s op = true)
    (hlen : s.inflight.length ≤ 1) :
    heldContent (batcherStep s op) = heldContent s ++ submittedOf op ∧
    (batcherStep s op).inflight.length ≤ 1 := by
  match op with
  | .submit ps =>
      refine ⟨?_, ?_⟩
      · simp only [batcherStep, heldContent, submittedOf, List.append_assoc]
      · simpa only [batcherStep] using hlen
  | .swapOut =>
      have hempty : s.inflight = [] := by
        simpa only [swapGuard, List.isEmpty_iff] using hguard
      by_cases hq : s.queue = []
      · refine ⟨by simp [batcherStep, hq, submittedOf], ?_⟩
        simpa only [batcherStep, if_pos hq] using hlen
      · refine ⟨?_, ?_⟩
        · simp [batcherStep, hq, heldContent, submittedOf, hempty]
        · simp [batcherStep, hq, hempty]
  | .uploadFailed i =>
      by_cases hij : i < s.inflight.length
      · have h1 : s.inflight.length = 1 := by omega
        obtain ⟨b, hb⟩ := List.length_eq_one.mp h1
        have hi0 : i = 0 := by omega
        subst hi0
        refine ⟨?_, ?_⟩
        · simp [batcherStep, hb, heldContent, submittedOf]
        · simp [batcherStep, hb]
      · refine ⟨by simp [batcherStep, hij, submittedOf], ?_⟩
        simpa only [batcherStep, if_neg hij] using hlen

lemma batcherRun_held_seq_from (ops : List EyeTracker.BatcherOp) :
    ∀ s : EyeTracker.BatcherState, nonOverlapping s ops = true → s.inflight.length ≤ 1 →
      heldContent (ops.foldl batcherStep s) = heldContent s ++ submittedAll ops := by
  induction ops with
  | nil => intro s _ _; simp [submittedAll]
  | cons op ops ih =>
      intro s hno hlen
      rw [nonOverlapping, Bool.and_eq_true] at hno
      obtain ⟨hguard, hrec⟩ := hno
      obtain ⟨hstep, hlen2⟩ := batcherStep_held_seq s op hguard hlen
      rw [List.foldl_cons, submittedAll_cons, ← List.append_assoc,
        ih (batcherStep s op) hrec hlen2, hstep]

/-- C3 counterexample: the interval body is an async callback, so two upload
attempts can be pending at once; when the older attempt fails first and the
newer one fails second, each rejection handler prepends its own batch at the
moment it fails, leaving the queue with the newer sample before the older
one — the claimed original relative order does not survive overlapping
failures.  Concretely: submit A, swap out, submit B, swap out (A still in
flight), A fails, then B fails: the queue ends as [B, A], not [A, B]. -/
theorem batcher_order_counterexample :
    (batcherRun [EyeTracker.BatcherOp.submit [⟨1, 0, none⟩], EyeTracker.BatcherOp.swapOut,
        EyeTracker.BatcherOp.submit [⟨2, 1, none⟩], EyeTracker.BatcherOp.swapOut,
        EyeTracker.BatcherOp.uploadFailed 0, EyeTracker.BatcherOp.uploadFailed 0]).queue
      = [⟨2, 1, none⟩, ⟨1, 0, none⟩] ∧
    submittedAll [EyeTracker.BatcherOp.submit [⟨1, 0, none⟩], EyeTracker.BatcherOp.swapOut,
        EyeTracker.BatcherOp.submit [⟨2, 1, none⟩], EyeTracker.BatcherOp.swapOut,
        EyeTracker.BatcherOp.uploadFailed 0, EyeTracker.BatcherOp.uploadFailed 0]
      = [⟨1, 0, none⟩, ⟨2, 1, none⟩] ∧
    (batcherRun [EyeTracker.BatcherOp.submit [⟨1, 0, none⟩], EyeTracker.BatcherOp.swapOut,
        EyeTracker.BatcherOp.submit [⟨2, 1, none⟩], EyeTracker.BatcherOp.swapOut,
        EyeTracker.BatcherOp.uploadFailed 0, EyeTracker.BatcherOp.uploadFailed 0]).inflight
      = [] ∧
    ([⟨2, 1, none⟩, ⟨1, 0, none⟩] : List Point) ≠ [⟨1, 0, none⟩, ⟨2, 1, none⟩] :=
  ⟨by decide, by decide, by decide, by decide⟩

/-- C3 amended: if every appendPoints call fails, no sample is ever lost and
none is duplicated: after any interleaving of submissions, swap-outs and
failed completions — overlapping attempts included — the samples held by the
batcher (pending failed batches plus the queue) are exactly the samples
submitted so far, each exactly once, as a permutation of the submission
order, and the held content never shrinks at any step.  The original
relative order itself is guaranteed only when upload attempts do not
overlap (every swap-out happens while no attempt is in flight): then the
held content equals the submitted samples in submission order, and once no
attempt is in flight the pending queue itself is exactly that list.
Overlapping failed attempts can invert inter-batch order, as the
counterexample shows. -/
theorem batcher_no_loss_amended (ops : List EyeTracker.BatcherOp) :
    (heldContent (batcherRun ops)).Perm (submittedAll ops) ∧
    (∀ op : EyeTracker.BatcherOp,
      (heldContent (batcherRun ops)).length
        ≤ (heldContent (batcherRun (ops ++ [op]))).length) ∧
    (nonOverlapping ⟨[], []⟩ ops = true →
      heldContent (batcherRun ops) = submittedAll ops ∧
      ((batcherRun ops).inflight = [] → (batcherRun ops).queue = submittedAll ops)) := by
  have hperm : (heldContent (batcherRun ops)).Perm (submittedAll ops) := by
    have h := batcherRun_held_perm_from ops ⟨[], []⟩
    simpa [batcherRun, heldContent] using h
  refine ⟨hperm, ?_, ?_⟩
  · intro op
    have h1 := batcherRun_held_perm_from [op] (batcherRun ops)
    have h2 : batcherRun (ops ++ [op]) = List.foldl batcherStep (batcherRun ops) [op] := by
      rw [batcherRun, batcherRun, List.foldl_append]
    rw [h2, h1.length_eq, List.length_append]
    omega
  · intro hno
    have heq : heldContent (batcherRun ops) = submittedAll ops := by
      have h := batcherRun_held_seq_from ops ⟨[], []⟩ hno (by simp)
      simpa [batcherRun, heldContent] using h
    refine ⟨heq, fun hinf => ?_⟩
    have hque : heldContent (batcherRun ops) = (batcherRun ops).queue := by
      simp [heldContent, hinf]
    rw [← hque, heq]

/-- Witness for the amended batcher theorem on a non-overlapping run: submit
A, swap out, the attempt fails, submit B; the queue then holds A and B in
submission order. -/
theorem batcher_no_loss_amended_witness :
    nonOverlapping ⟨[], []⟩ [EyeTracker.BatcherOp.submit [⟨1, 0, none⟩],
        EyeTracker.BatcherOp.swapOut, EyeTracker.BatcherOp.uploadFailed 0,
        EyeTracker.BatcherOp.submit [⟨2, 1, none⟩]] = true ∧
    (heldContent (batcherRun [EyeTracker.BatcherOp.submit [⟨1, 0, none⟩],
        EyeTracker.BatcherOp.swapOut, EyeTracker.BatcherOp.uploadFailed 0,
        EyeTracker.BatcherOp.submit [⟨2, 1, none⟩]])).Perm
      (submittedAll [EyeTracker.BatcherOp.submit [⟨1, 0, none⟩],
        EyeTracker.BatcherOp.swapOut, EyeTracker.BatcherOp.uploadFailed 0,
        EyeTracker.BatcherOp.submit [⟨2, 1, none⟩]]) ∧
    heldContent (batcherRun [EyeTracker.BatcherOp.submit [⟨1, 0, none⟩],
        EyeTracker.BatcherOp.swapOut, EyeTracker.BatcherOp.uploadFailed 0,
        EyeTracker.BatcherOp.submit [⟨2, 1, none⟩]])
      = submittedAll [EyeTracker.BatcherOp.submit [⟨1, 0, none⟩],
        EyeTracker.BatcherOp.swapOut, EyeTracker.BatcherOp.uploadFailed 0,
        EyeTracker.BatcherOp.submit [⟨2, 1, none⟩]] ∧
    (batcherRun [EyeTracker.BatcherOp.submit [⟨1, 0, none⟩],
        EyeTracker.BatcherOp.swapOut, EyeTracker.BatcherOp.uploadFailed 0,
        EyeTracker.BatcherOp.submit [⟨2, 1, none⟩]]).queue
      = submittedAll [EyeTracker.BatcherOp.submit [⟨1, 0, none⟩],
        EyeTracker.BatcherOp.swapOut, EyeTracker.BatcherOp.uploadFailed 0,
        EyeTracker.BatcherOp.submit [⟨2, 1, none⟩]] :=
  ⟨by decide,
   (batcher_no_loss_amended [EyeTracker.BatcherOp.submit [⟨1, 0, none⟩],
      EyeTracker.BatcherOp.swapOut, EyeTracker.BatcherOp.uploadFailed 0,
      EyeTracker.BatcherOp.submit [⟨2, 1, none⟩]]).1,
   ((batcher_no_loss_amended [EyeTracker.BatcherOp.submit [⟨1, 0, none⟩],
      EyeTracker.BatcherOp.swapOut, EyeTracker.BatcherOp.uploadFailed 0,
      EyeTracker.BatcherOp.submit [⟨2, 1, none⟩]]).2.2 (by decide)).1,
   ((batcher_no_loss_amended [EyeTracker.BatcherOp.submit [⟨1, 0, none⟩],
      EyeTracker.BatcherOp.swapOut, EyeTracker.BatcherOp.uploadFailed 0,
      EyeTracker.BatcherOp.submit [⟨2, 1, none⟩]]).2.2 (by decide)).2 (by decide)⟩

/-- C10 counterexample: on the same store holding one session with one
sample, the registered DELETE route refuses with HTTP status 400 (a
validation-style error, not 409 Conflict) while the cascade variant deletes
the session and its samples; the repository therefore does not apply a
single deletion policy, and the refusing policy does not use a Conflict
error. -/
theorem deleteSession_policy_counterexample :
    deleteSessionForbid ⟨[7], [(7, ⟨1, 0, none, none⟩)]⟩ 7
      = SessionsRoute.DeleteResult.refused 400 ∧
    (400 : ℕ) ≠ 409 ∧
    deleteSessionCascade ⟨[7], [(7, ⟨1, 0, none, none⟩)]⟩ 7
      = SessionsRoute.DeleteResult.deleted ⟨[], []⟩ ∧
    deleteSessionForbid ⟨[7], [(7, ⟨1, 0, none, none⟩)]⟩ 7
      ≠ deleteSessionCascade ⟨[7], [(7, ⟨1, 0, none, none⟩)]⟩ 7 := by
  refine ⟨?_, by decide, ?_, ?_⟩ <;>
    simp [deleteSessionForbid, deleteSessionCascade, sampleCount, eraseSession,
      SessionsRoute.listPoints, List.filter]

/-- C10 amended: each deletion variant applies its own policy consistently.
On a session that still has samples, the registered route always refuses
with status 400 (the session and its samples survive untouched), while the
cascade variant always deletes the session together with all of its samples,
after which listPoints for that session returns NotFound. -/
theorem deleteSession_policies_amended (db : SessionsRoute.Db) (id : SessionsRoute.SessionId)
    (hmem : id ∈ db.sessions) (hcnt : 0 < sampleCount db id) :
    deleteSessionForbid db id = SessionsRoute.DeleteResult.refused 400 ∧
    deleteSessionCascade db id = SessionsRoute.DeleteResult.deleted (eraseSession db id) ∧
    SessionsRoute.listPoints (eraseSession db id) id = SessionsRoute.ListPointsResult.notFound ∧
    sampleCount (eraseSession db id) id = 0 := by
  refine ⟨?_, ?_, ?_, ?_⟩
  · simp [deleteSessionForbid, hmem, hcnt]
  · simp [deleteSessionCascade, hmem]
  · have hnot : id ∉ (eraseSession db id).sessions := by
      simp [eraseSession]
    simp [SessionsRoute.listPoints, hnot]
  · simp [sampleCount, eraseSession, List.filter_filter]

/-- Witness for the amended deletion-policy theorem on a store with one
non-empty session. -/
theorem deleteSession_policies_amended_witness :
    ((7 : SessionsRoute.SessionId) ∈ ([7] : List SessionsRoute.SessionId) ∧
      0 < sampleCount ⟨[7], [(7, ⟨1, 0, none, none⟩)]⟩ 7) ∧
    (deleteSessionForbid ⟨[7], [(7, ⟨1, 0, none, none⟩)]⟩ 7
        = SessionsRoute.DeleteResult.refused 400 ∧
     deleteSessionCascade ⟨[7], [(7, ⟨1, 0, none, none⟩)]⟩ 7
        = SessionsRoute.DeleteResult.deleted
            (eraseSession ⟨[7], [(7, ⟨1, 0, none, none⟩)]⟩ 7) ∧
     SessionsRoute.listPoints (eraseSession ⟨[7], [(7, ⟨1, 0, none, none⟩)]⟩ 7) 7
        = SessionsRoute.ListPointsResult.notFound ∧
     sampleCount (eraseSession ⟨[7], [(7, ⟨1, 0, none, none⟩)]⟩ 7) 7 = 0) :=
  ⟨⟨by decide, by decide⟩,
   deleteSession_policies_amended ⟨[7], [(7, ⟨1, 0, none, none⟩)]⟩ 7 (by decide) (by decide)⟩

lemma drop_cons_facts {pts rest : List PbPoint} {p : PbPoint} {k : ℕ}
    (h : pts.drop k = p :: rest) :
    k < pts.length ∧ pts.getD k dummyPbPoint = p ∧ pts.drop (k + 1) = rest := by
  have hk : k < pts.length := by
    by_contra hk
    rw [List.drop_eq_nil_of_le (le_of_not_lt hk)] at h
    exact List.noConfusion h
  have hd := List.drop_eq_getElem_cons hk
  rw [h] at hd
  obtain ⟨h1, h2⟩ := List.cons.inj hd.symm
  exact ⟨hk, by rw [List.getD_eq_getElem _ _ hk, h1], h2⟩

lemma scanClosestIdx_spec (pts : List PbPoint) (t : ℤ) :
    ∀ (rest : List PbPoint) (k best : ℕ) (minD : ℤ),
      rest = pts.drop k → k ≤ pts.length → best < pts.length →
      minD = |(pts.getD best dummyPbPoint).ts - t| →
      best ≤ k →
      (∀ j, j < k → minD ≤ |(pts.getD j dummyPbPoint).ts - t|) →
      (∀ j, j < k → |(pts.getD j dummyPbPoint).ts - t| = minD → best ≤ j) →
      (scanClosestIdx t rest k (best, minD)).1 < pts.length ∧
      (scanClosestIdx t rest k (best, minD)).2
        = |(pts.getD (scanClosestIdx t rest k (best, minD)).1 dummyPbPoint).ts - t| ∧
      (∀ j, j < pts.length →
        (scanClosestIdx t rest k (best, minD)).2 ≤ |(pts.getD j dummyPbPoint).ts - t|) ∧
      (∀ j, j < pts.length →
        |(pts.getD j dummyPbPoint).ts - t| = (scanClosestIdx t rest k (best, minD)).2 →
        (scanClosestIdx t rest k (best, minD)).1 ≤ j) := by
  intro rest
  induction rest with
  | nil =>
      intro k best minD hdrop hk hbest hmin _ hlb hfirst
      have hkl : pts.length ≤ k := by
        have := congrArg List.length hdrop
        simp [List.length_drop] at this
        omega
      have hkeq : k = pts.length := le_antisymm hk hkl
      subst hkeq
      exact ⟨hbest, hmin, hlb, hfirst⟩
  | cons p rest2 ih =>
      intro k best minD hdrop hk hbest hmin hbk hlb hfirst
      obtain ⟨hklen, hget, hdrop2⟩ := drop_cons_facts hdrop.symm
      rw [scanClosestIdx]
      by_cases hcl : |p.ts - t| < minD
      · rw [if_pos hcl]
        refine ih (k + 1) k (|p.ts - t|) hdrop2.symm hklen hklen (by rw [hget])
          (Nat.le_succ k) ?_ ?_
        · intro j hj
          rcases Nat.lt_succ_iff_lt_or_eq.mp hj with hjk | hjk
          · exact le_of_lt (lt_of_lt_of_le hcl (hlb j hjk))
          · subst hjk; rw [hget]
        · intro j hj hdj
          rcases Nat.lt_succ_iff_lt_or_eq.mp hj with hjk | hjk
          · exact absurd hdj (by have := hlb j hjk; omega)
          · omega
      · rw [if_neg hcl]
        refine ih (k + 1) best minD hdrop2.symm hklen hbest hmin
          (le_trans hbk (Nat.le_succ k)) ?_ ?_
        · intro j hj
          rcases Nat.lt_succ_iff_lt_or_eq.mp hj with hjk | hjk
          · exact hlb j hjk
          · subst hjk; rw [hget]; omega
        · intro j hj hdj
          rcases Nat.lt_succ_iff_lt_or_eq.mp hj with hjk | hjk
          · exact hfirst j hjk hdj
          · omega

lemma scanClosestPt_eq_idx (pts : List PbPoint) (t : ℤ) :
    ∀ (rest : List PbPoint) (k best : ℕ) (minD : ℤ) (bp : PbPoint),
      rest = pts.drop k → best < pts.length → bp = pts.getD best dummyPbPoint →
      (scanClosestPt t rest (bp, minD)).1
        = pts.getD (scanClosestIdx t rest k (best, minD)).1 dummyPbPoint := by
  intro rest
  induction rest with
  | nil =>
      intro k best minD bp _ _ hbp
      simpa [scanClosestPt, scanClosestIdx] using hbp
  | cons p rest2 ih =>
      intro k best minD bp hdrop hbest hbp
      obtain ⟨hklen, hget, hdrop2⟩ := drop_cons_facts hdrop.symm
      rw [scanClosestPt, scanClosestIdx]
      by_cases hcl : |p.ts - t| < minD
      · rw [if_pos hcl, if_pos hcl]
        exact ih (k + 1) k (|p.ts - t|) p hdrop2.symm hklen hget.symm
      · rw [if_neg hcl, if_neg hcl]
        exact ih (k + 1) best minD bp hdrop2.symm hbest hbp

/-- C9: on a non-empty, timestamp-sorted sample list, getCurrentSampleIndex
returns an in-range index whose timestamp distance to the query time is
minimal, ties resolved toward the earliest such sample, and getCurrentXValue
returns the x of exactly that sample. -/
theorem nearest_sample_minimal (pts : List PbPoint) (t : ℤ) (hne : pts ≠ [])
    (hsorted : List.Pairwise (fun a b => a.ts ≤ b.ts) pts) :
    getCurrentSampleIndex pts t < pts.length ∧
    (∀ j, j < pts.length →
      |(pts.getD (getCurrentSampleIndex pts t) dummyPbPoint).ts - t|
        ≤ |(pts.getD j dummyPbPoint).ts - t|) ∧
    (∀ j, j < pts.length →
      |(pts.getD j dummyPbPoint).ts - t|
        = |(pts.getD (getCurrentSampleIndex pts t) dummyPbPoint).ts - t| →
      getCurrentSampleIndex pts t ≤ j) ∧
    getCurrentXValue pts t = (pts.getD (getCurrentSampleIndex pts t) dummyPbPoint).x := by
  match pts, hne with
  | p0 :: rest, _ =>
      have hlen : 0 < (p0 :: rest).length := by simp
      have hget0 : (p0 :: rest).getD 0 dummyPbPoint = p0 := rfl
      have hspec := scanClosestIdx_spec (p0 :: rest) t (p0 :: rest) 0 0
        (|p0.ts - t|) rfl (Nat.zero_le _) hlen (by rw [hget0]) (le_refl 0)
        (fun j hj => absurd hj (Nat.not_lt_zero j))
        (fun j hj => absurd hj (Nat.not_lt_zero j))
      obtain ⟨h1, h2, h3, h4⟩ := hspec
      have hidx : getCurrentSampleIndex (p0 :: rest) t
          = (scanClosestIdx t (p0 :: rest) 0 (0, |p0.ts - t|)).1 := rfl
      refine ⟨by rw [hidx]; exact h1, ?_, ?_, ?_⟩
      · intro j hj
        rw [hidx, ← h2]
        exact h3 j hj
      · intro j hj hdj
        rw [hidx]
        exact h4 j hj (by rw [hdj, hidx]; exact h2.symm)
      · have hpt := scanClosestPt_eq_idx (p0 :: rest) t (p0 :: rest) 0 0
          (|p0.ts - t|) p0 rfl hlen hget0.symm
        rw [getCurrentXValue, hidx, hpt]

/-- Witness for the nearest-sample theorem: two samples at timestamps 0 and
10, query time 4; the theorem applies with the nonemptiness and sortedness
hypotheses checked on this concrete list. -/
theorem nearest_sample_minimal_witness :
    (([⟨0, 0, none⟩, ⟨10, 1, none⟩] : List PbPoint) ≠ [] ∧
      List.Pairwise (fun a b => a.ts ≤ b.ts) ([⟨0, 0, none⟩, ⟨10, 1, none⟩] : List PbPoint)) ∧
    (getCurrentSampleIndex ([⟨0, 0, none⟩, ⟨10, 1, none⟩] : List PbPoint) 4
        < ([⟨0, 0, none⟩, ⟨10, 1, none⟩] : List PbPoint).length ∧
      (∀ j, j < ([⟨0, 0, none⟩, ⟨10, 1, none⟩] : List PbPoint).length →
        |(([⟨0, 0, none⟩, ⟨10, 1, none⟩] : List PbPoint).getD
            (getCurrentSampleIndex ([⟨0, 0, none⟩, ⟨10, 1, none⟩] : List PbPoint) 4)
            dummyPbPoint).ts - 4|
          ≤ |(([⟨0, 0, none⟩, ⟨10, 1, none⟩] : List PbPoint).getD j dummyPbPoint).ts - 4|) ∧
      (∀ j, j < ([⟨0, 0, none⟩, ⟨10, 1, none⟩] : List PbPoint).length →
        |(([⟨0, 0, none⟩, ⟨10, 1, none⟩] : List PbPoint).getD j dummyPbPoint).ts - 4|
          = |(([⟨0, 0, none⟩, ⟨10, 1, none⟩] : List PbPoint).getD
              (getCurrentSampleIndex ([⟨0, 0, none⟩, ⟨10, 1, none⟩] : List PbPoint) 4)
              dummyPbPoint).ts - 4| →
        getCurrentSampleIndex ([⟨0, 0, none⟩, ⟨10, 1, none⟩] : List PbPoint) 4 ≤ j) ∧
      getCurrentXValue ([⟨0, 0, none⟩, ⟨10, 1, none⟩] : List PbPoint) 4
        = (([⟨0, 0, none⟩, ⟨10, 1, none⟩] : List PbPoint).getD
            (getCurrentSampleIndex ([⟨0, 0, none⟩, ⟨10, 1, none⟩] : List PbPoint) 4)
            dummyPbPoint).x) :=
  ⟨⟨by decide, by decide⟩,
   nearest_sample_minimal [⟨0, 0, none⟩, ⟨10, 1, none⟩] 4 (by decide) (by decide)⟩

section ProcessorLemmas

open Processor SignalProcessor

lemma length_insertByTs (p : Point) (l : List Point) :
    (insertByTs p l).length = l.length + 1 := by
  induction l with
  | nil => rfl
  | cons q rest ih =>
      rw [insertByTs]
      by_cases h : q.ts < p.ts
      · rw [if_pos h, List.length_cons, ih, List.length_cons]
      · rw [if_neg h, List.length_cons, List.length_cons]

lemma length_sortByTs (l : List Point) : (sortByTs l).length = l.length := by
  induction l with
  | nil => rfl
  | cons p rest ih => rw [sortByTs, length_insertByTs, ih, List.length_cons]

lemma sortByTs_eq_self {l : List Point}
    (h : List.Pairwise (fun a b => a.ts ≤ b.ts) l) : sortByTs l = l := by
  induction l with
  | nil => rfl
  | cons p rest ih =>
      rw [List.pairwise_cons] at h
      rw [sortByTs, ih h.2]
      match rest, h with
      | [], _ => rfl
      | q :: rest2, ⟨hle, _⟩ =>
          rw [insertByTs, if_neg (not_lt.mpr (hle q (List.mem_cons_self q rest2)))]

lemma length_movingAverage (xs : List ℚ) (k : ℕ) :
    (movingAverage xs k).length = xs.length := by
  rw [movingAverage, List.length_map, List.length_range]

lemma window_avg_bounds {lo hi : ℚ} {xs : List ℚ} (hx : ∀ y ∈ xs, lo ≤ y ∧ y ≤ hi)
    {win : List ℚ} (hwin : ∀ y ∈ win, y ∈ xs) (hne : win ≠ []) :
    lo ≤ win.sum / (win.length : ℚ) ∧ win.sum / (win.length : ℚ) ≤ hi := by
  have hlen : 0 < (win.length : ℚ) := by
    have : 0 < win.length := List.length_pos.mpr hne
    exact_mod_cast this
  have hub : win.sum ≤ (win.length : ℚ) * hi := by
    have := List.sum_le_card_nsmul win hi (fun y hy => (hx y (hwin y hy)).2)
    simpa [nsmul_eq_mul] using this
  have hlb : (win.length : ℚ) * lo ≤ win.sum := by
    have := List.card_nsmul_le_sum win lo (fun y hy => (hx y (hwin y hy)).1)
    simpa [nsmul_eq_mul] using this
  constructor
  · rw [le_div_iff₀ hlen]
    linarith
  · rw [div_le_iff₀ hlen]
    linarith

lemma movingAverage_bounds {lo hi : ℚ} {xs : List ℚ} (k : ℕ)
    (hx : ∀ y ∈ xs, lo ≤ y ∧ y ≤ hi) :
    ∀ z ∈ movingAverage xs k, lo ≤ z ∧ z ≤ hi := by
  intro z hz
  rw [movingAverage, List.mem_map] at hz
  obtain ⟨i, hi_mem, hz⟩ := hz
  rw [List.mem_range] at hi_mem
  set s := i - k / 2 with hs
  set e := min xs.length (i + k / 2 + 1) with he
  have hwin_sub : ∀ y ∈ ((xs.drop s).take (e - s)), y ∈ xs :=
    fun y hy => List.mem_of_mem_drop (List.mem_of_mem_take hy)
  have hne : ((xs.drop s).take (e - s)) ≠ [] := by
    rw [← List.length_pos, List.length_take, List.length_drop]
    omega
  have := window_avg_bounds hx hwin_sub hne
  rw [← hz] at *
  exact this

lemma enum_map_getD {α β : Type} (l : List α) (g : ℕ × α → β) (i : ℕ)
    (hi : i < l.length) (d : β) (d2 : α) :
    (l.enum.map g).getD i d = g (i, l.getD i d2) := by
  have hlen : i < (l.enum.map g).length := by
    rw [List.length_map, List.enum_length]
    exact hi
  rw [List.getD_eq_getElem _ _ hlen, List.getElem_map, List.getElem_enum,
    List.getD_eq_getElem _ _ hi]

/-- The sorted-and-clamped stage of processAligned. -/
def sortedClamped (points : List Point) : List Point :=
  (sortByTs points).map fun p => { p with x := clamp p.x (-1) 1 }

/-- Per-sample step of processAligned over the enumerated sorted batch. -/
def alignStep (points : List Point) (ip : ℕ × Point) : Processor.ProcessedPoint :=
  let i := ip.1
  let p := ip.2
  let isLowConfidence := confNullish1 p.confidence < 1/10
  let filtered :=
    if isLowConfidence then
      (if 0 < i then (movingAverage ((sortedClamped points).map (·.x))).getD (i - 1) 0
       else (movingAverage ((sortedClamped points).map (·.x))).getD i 0)
    else (movingAverage ((sortedClamped points).map (·.x))).getD i 0
  { ts := p.ts, raw := p.x, filtered := filtered, confidence := p.confidence,
    isOutlier := decide isLowConfidence,
    quality := confNullish1 p.confidence }

lemma processAligned_eq (points : List Point) (h : points ≠ []) :
    processAligned points = (sortedClamped points).enum.map (alignStep points) := by
  rw [processAligned, if_neg h]
  rfl

lemma length_sortedClamped (points : List Point) :
    (sortedClamped points).length = points.length := by
  rw [sortedClamped, List.length_map, length_sortByTs]

lemma length_processAligned (points : List Point) :
    (processAligned points).length = points.length := by
  by_cases h : points = []
  · subst h; rfl
  · rw [processAligned_eq points h, List.length_map, List.enum_length,
      length_sortedClamped]

lemma sortedClamped_x_bounds (points : List Point) :
    ∀ y ∈ (sortedClamped points).map (·.x), -1 ≤ y ∧ y ≤ 1 := by
  intro y hy
  rw [List.mem_map] at hy
  obtain ⟨p, hp, hy⟩ := hy
  rw [sortedClamped, List.mem_map] at hp
  obtain ⟨q, _, hq⟩ := hp
  rw [← hy, ← hq]
  exact clamp_range q.x

lemma processAligned_filtered_bounds (points : List Point) :
    ∀ q ∈ processAligned points, -1 ≤ q.filtered ∧ q.filtered ≤ 1 := by
  intro q hq
  by_cases h : points = []
  · subst h; exact absurd hq (by simp [processAligned])
  · rw [processAligned_eq points h, List.mem_iff_getElem] at hq
    obtain ⟨j, hj, hq⟩ := hq
    rw [List.length_map, List.enum_length] at hj
    have hgd := enum_map_getD (sortedClamped points) (alignStep points) j hj
      Processor.dummyProcessed dummyPoint
    rw [List.getD_eq_getElem _ _ (by
      rw [List.length_map, List.enum_length]; exact hj), hq] at hgd
    have hsm : ∀ z ∈ movingAverage ((sortedClamped points).map (·.x)) 5,
        -1 ≤ z ∧ z ≤ 1 :=
      movingAverage_bounds 5 (sortedClamped_x_bounds points)
    have hlen : (movingAverage ((sortedClamped points).map (·.x)) 5).length
        = (sortedClamped points).length := by
      rw [length_movingAverage, List.length_map]
    have hmem : ∀ m : ℕ, m < (sortedClamped points).length →
        -1 ≤ (movingAverage ((sortedClamped points).map (·.x))).getD m 0 ∧
        (movingAverage ((sortedClamped points).map (·.x))).getD m 0 ≤ 1 := by
      intro m hm
      have hm2 : m < (movingAverage ((sortedClamped points).map (·.x)) 5).length := by
        rw [hlen]; exact hm
      rw [List.getD_eq_getElem _ _ hm2]
      exact hsm _ (List.getElem_mem hm2)
    have hfil : q.filtered
        = (if confNullish1 ((sortedClamped points).getD j dummyPoint).confidence < 1/10 then
            (if 0 < j then (movingAverage ((sortedClamped points).map (·.x))).getD (j - 1) 0
             else (movingAverage ((sortedClamped points).map (·.x))).getD j 0)
          else (movingAverage ((sortedClamped points).map (·.x))).getD j 0) := by
      rw [hgd]
      rfl
    rw [hfil]
    by_cases hc : confNullish1 ((sortedClamped points).getD j dummyPoint).confidence < 1/10
    · rw [if_pos hc]
      by_cases hj0 : 0 < j
      · rw [if_pos hj0]
        exact hmem (j - 1) (by omega)
      · rw [if_neg hj0]
        exact hmem j hj
    · rw [if_neg hc]
      exact hmem j hj

lemma processAligned_map_ts (points : List Point) :
    (processAligned points).map (·.ts) = (sortByTs points).map (·.ts) := by
  by_cases h : points = []
  · subst h; rfl
  · rw [processAligned_eq points h, List.map_map]
    have h1 : ((fun q : Processor.ProcessedPoint => q.ts) ∘ alignStep points)
        = (fun p : Point => p.ts) ∘ (Prod.snd : ℕ × Point → Point) := rfl
    rw [h1, ← List.map_map, List.enum_map_snd, sortedClamped, List.map_map]
    rfl

lemma length_applyMovingAverageFilter (points : List Point) (k : ℕ) :
    (SignalProcessor.applyMovingAverageFilter points k).length = points.length := by
  by_cases h : points = []
  · subst h; rfl
  · rw [SignalProcessor.applyMovingAverageFilter, if_neg h, List.length_map,
      List.length_range]

lemma length_removeOutliers_le (points : List Point) (th : ℚ) :
    (SignalProcessor.removeOutliers points th).length ≤ points.length := by
  rw [SignalProcessor.removeOutliers]
  by_cases h : points.length < 3
  · rw [if_pos h]
  · rw [if_neg h]
    have hint : (((List.range (points.length - 2)).map (· + 1)).filterMap fun i =>
        if |(points.getD i dummyPoint).x - (points.getD (i - 1) dummyPoint).x| < th ∧
           |(points.getD i dummyPoint).x - (points.getD (i + 1) dummyPoint).x| < th
        then some (points.getD i dummyPoint) else none).length ≤ points.length - 2 := by
      calc _ ≤ ((List.range (points.length - 2)).map (· + 1)).length :=
            List.length_filterMap_le _ _
        _ = points.length - 2 := by rw [List.length_map, List.length_range]
    simp only [List.length_append, List.length_cons, List.length_nil]
    rw [if_pos (by omega : 1 < points.length)]
    simp only [List.length_cons, List.length_nil]
    omega

lemma length_processPoints_le (points : List Point) :
    (SignalProcessor.processPoints points).length ≤ points.length := by
  by_cases h : points = []
  · subst h; exact le_refl _
  · rw [SignalProcessor.processPoints, if_neg h, List.length_map]
    calc (SignalProcessor.applyMovingAverageFilter
            (SignalProcessor.removeOutliers
              (SignalProcessor.filterByConfidence points))).length
        = (SignalProcessor.removeOutliers
            (SignalProcessor.filterByConfidence points)).length :=
          length_applyMovingAverageFilter _ _
      _ ≤ (SignalProcessor.filterByConfidence points).length :=
          length_removeOutliers_le _ _
      _ ≤ points.length := List.length_filter_le _ _

lemma processPoints_x_bounds (points : List Point) :
    ∀ q ∈ SignalProcessor.processPoints points, -1 ≤ q.x ∧ q.x ≤ 1 := by
  intro q hq
  by_cases h : points = []
  · subst h; exact absurd hq (by simp [SignalProcessor.processPoints])
  · rw [SignalProcessor.processPoints, if_neg h, List.mem_map] at hq
    obtain ⟨p, _, hq⟩ := hq
    rw [← hq]
    exact clamp_range p.x

/-- C1 amended: processAligned (the server filter pipeline of processor.ts)
produces exactly one output per input sample with the order of a
timestamp-sorted input preserved, and every output filtered value lies in
[-1, 1]; SignalProcessor.processPoints (the points-route pipeline) also
keeps every output value in [-1, 1] but may drop low-confidence and
neighbor-outlier samples, so its output count is only bounded by the input
count rather than equal to it. -/
theorem filter_pipeline_amended (points : List Point)
    (hsorted : List.Pairwise (fun a b => a.ts ≤ b.ts) points) :
    (Processor.processAligned points).length = points.length ∧
    (Processor.processAligned points).map (·.ts) = points.map (·.ts) ∧
    (∀ q ∈ Processor.processAligned points, -1 ≤ q.filtered ∧ q.filtered ≤ 1) ∧
    (SignalProcessor.processPoints points).length ≤ points.length ∧
    (∀ q ∈ SignalProcessor.processPoints points, -1 ≤ q.x ∧ q.x ≤ 1) :=
  ⟨length_processAligned points,
   by rw [processAligned_map_ts, sortByTs_eq_self hsorted],
   processAligned_filtered_bounds points,
   length_processPoints_le points,
   processPoints_x_bounds points⟩

/-- Witness for the amended filter-pipeline theorem on a sorted two-sample
batch. -/
theorem filter_pipeline_amended_witness :
    List.Pairwise (fun a b => a.ts ≤ b.ts) ([⟨1, 0, none⟩, ⟨2, 1, some 1⟩] : List Point) ∧
    ((Processor.processAligned [⟨1, 0, none⟩, ⟨2, 1, some 1⟩]).length
        = ([⟨1, 0, none⟩, ⟨2, 1, some 1⟩] : List Point).length ∧
     (Processor.processAligned [⟨1, 0, none⟩, ⟨2, 1, some 1⟩]).map (·.ts)
        = ([⟨1, 0, none⟩, ⟨2, 1, some 1⟩] : List Point).map (·.ts) ∧
     (∀ q ∈ Processor.processAligned [⟨1, 0, none⟩, ⟨2, 1, some 1⟩],
        -1 ≤ q.filtered ∧ q.filtered ≤ 1) ∧
     (SignalProcessor.processPoints [⟨1, 0, none⟩, ⟨2, 1, some 1⟩]).length
        ≤ ([⟨1, 0, none⟩, ⟨2, 1, some 1⟩] : List Point).length ∧
     (∀ q ∈ SignalProcessor.processPoints [⟨1, 0, none⟩, ⟨2, 1, some 1⟩],
        -1 ≤ q.x ∧ q.x ≤ 1)) :=
  ⟨by decide, filter_pipeline_amended [⟨1, 0, none⟩, ⟨2, 1, some 1⟩] (by decide)⟩

/-- C1 counterexample: a one-sample batch with confidence 0.05 is removed
entirely by the confidence filter of SignalProcessor.processPoints, so the
pipeline cited by the claim emits zero outputs for one input, contradicting
the claimed one-output-per-input property. -/
theorem filter_pipeline_counterexample :
    (SignalProcessor.processPoints [⟨1, 0, some (1/20)⟩]).length = 0 ∧
    ([⟨1, 0, some (1/20)⟩] : List Point).length = 1 := by
  constructor
  · have h1 : SignalProcessor.filterByConfidence [⟨1, 0, some (1/20)⟩] = [] := by
      rw [SignalProcessor.filterByConfidence]
      norm_num [List.filter, confFalsy1]
    rw [SignalProcessor.processPoints, if_neg (by simp), h1]
    rfl
  · rfl

/-- C5 amended: in processAligned every sample whose (nullish-defaulted)
confidence is below 0.1 is marked isOutlier and retained in the output (the
output has one entry per input), but its frozen value is the moving-average
output at the previous index — not the filtered value of the previous
output sample — and the first sample of the batch receives its own
moving-average value, not its own raw value.  (In the points-route pipeline,
SignalProcessor.filterByConfidence, such samples are instead dropped before
storage.) -/
theorem confidence_gate_amended (points : List Point) (i : ℕ) (hi : i < points.length) :
    (Processor.processAligned points).length = points.length ∧
    (((Processor.processAligned points).getD i Processor.dummyProcessed).isOutlier = true ↔
      confNullish1 ((sortedClamped points).getD i dummyPoint).confidence < 1/10) ∧
    (confNullish1 ((sortedClamped points).getD i dummyPoint).confidence < 1/10 →
      ((Processor.processAligned points).getD i Processor.dummyProcessed).filtered
        = (movingAverage ((sortedClamped points).map (·.x))).getD
            (if 0 < i then i - 1 else i) 0) := by
  have hne : points ≠ [] := by
    intro hcon
    rw [hcon] at hi
    exact absurd hi (by simp)
  have hisc : i < (sortedClamped points).length := by
    rw [length_sortedClamped]; exact hi
  have hgd : (Processor.processAligned points).getD i Processor.dummyProcessed
      = alignStep points (i, (sortedClamped points).getD i dummyPoint) := by
    rw [processAligned_eq points hne]
    exact enum_map_getD (sortedClamped points) (alignStep points) i hisc
      Processor.dummyProcessed dummyPoint
  refine ⟨length_processAligned points, ?_, ?_⟩
  · rw [hgd]
    show decide (confNullish1 ((sortedClamped points).getD i dummyPoint).confidence < 1/10)
        = true ↔ _
    exact decide_eq_true_iff
  · intro hlow
    rw [hgd]
    show (if confNullish1 ((sortedClamped points).getD i dummyPoint).confidence < 1/10 then
          (if 0 < i then (movingAverage ((sortedClamped points).map (·.x))).getD (i - 1) 0
           else (movingAverage ((sortedClamped points).map (·.x))).getD i 0)
        else (movingAverage ((sortedClamped points).map (·.x))).getD i 0) = _
    rw [if_pos hlow]
    by_cases hi0 : 0 < i
    · rw [if_pos hi0, if_pos hi0]
    · rw [if_neg hi0, if_neg hi0]

/-- Witness for the amended confidence-gate theorem at index 0 of a
two-sample batch whose first sample has confidence 0.05. -/
theorem confidence_gate_amended_witness :
    (0 < ([⟨1, 0, some (1/20)⟩, ⟨2, 1, some 1⟩] : List Point).length) ∧
    ((Processor.processAligned [⟨1, 0, some (1/20)⟩, ⟨2, 1, some 1⟩]).length
        = ([⟨1, 0, some (1/20)⟩, ⟨2, 1, some 1⟩] : List Point).length ∧
     (((Processor.processAligned [⟨1, 0, some (1/20)⟩, ⟨2, 1, some 1⟩]).getD 0
          Processor.dummyProcessed).isOutlier = true ↔
        confNullish1 ((sortedClamped [⟨1, 0, some (1/20)⟩, ⟨2, 1, some 1⟩]).getD 0
          dummyPoint).confidence < 1/10) ∧
     (confNullish1 ((sortedClamped [⟨1, 0, some (1/20)⟩, ⟨2, 1, some 1⟩]).getD 0
          dummyPoint).confidence < 1/10 →
        ((Processor.processAligned [⟨1, 0, some (1/20)⟩, ⟨2, 1, some 1⟩]).getD 0
            Processor.dummyProcessed).filtered
          = (movingAverage ((sortedClamped [⟨1, 0, some (1/20)⟩, ⟨2, 1, some 1⟩]).map
              (·.x))).getD (if 0 < 0 then 0 - 1 else 0) 0)) :=
  ⟨by decide, confidence_gate_amended [⟨1, 0, some (1/20)⟩, ⟨2, 1, some 1⟩] 0 (by decide)⟩

/-- C5 counterexample: in the batch [(ts 1, x 0, confidence 0.05),
(ts 2, x 1, confidence 1)] the first sample is confidence-gated, and the
code freezes it to the moving-average value 1/2 instead of its own raw
value 0, contradicting the claimed first-sample freeze behavior. -/
theorem confidence_gate_counterexample :
    ((Processor.processAligned [⟨1, 0, some (1/20)⟩, ⟨2, 1, some 1⟩]).getD 0
        Processor.dummyProcessed).isOutlier = true ∧
    ((Processor.processAligned [⟨1, 0, some (1/20)⟩, ⟨2, 1, some 1⟩]).getD 0
        Processor.dummyProcessed).raw = 0 ∧
    ((Processor.processAligned [⟨1, 0, some (1/20)⟩, ⟨2, 1, some 1⟩]).getD 0
        Processor.dummyProcessed).filtered = 1/2 ∧
    ((1:ℚ)/2) ≠ 0 := by
  have h : Processor.processAligned [⟨1, 0, some (1/20)⟩, ⟨2, 1, some 1⟩]
      = [⟨1, 0, 1/2, some (1/20), true, 1/20⟩, ⟨2, 1, 1/2, some 1, false, 1⟩] := by
    rw [Processor.processAligned, if_neg (by simp)]
    norm_num [Processor.sortByTs, Processor.insertByTs, clamp, Processor.movingAverage,
      confNullish1, List.range_succ, List.enum, List.enumFrom, min_def, max_def]
  rw [h]
  norm_num

/-- C4: the POST points handler persists the processed value into the xRaw
column: on the batch [(ts 1, x 0), (ts 2, x 1)] the stored xRaw values are
the moving averages [1/2, 1/2], not the submitted raw values [0, 1], so the
stored raw data is lossy, contradicting the claim (and the intent expressed
by the column name xRaw and the raw export format). -/
theorem stored_xRaw_is_processed :
    (SignalProcessor.samplesData [⟨1, 0, none⟩, ⟨2, 1, none⟩]).map (·.xRaw)
      = [1/2, 1/2] ∧
    ([⟨1, 0, none⟩, ⟨2, 1, none⟩] : List Point).map (·.x) = [0, 1] ∧
    ([1/2, 1/2] : List ℚ) ≠ [0, 1] := by
  refine ⟨?_, by norm_num, by norm_num⟩
  have hfc : SignalProcessor.filterByConfidence [⟨1, 0, none⟩, ⟨2, 1, none⟩]
      = [⟨1, 0, none⟩, ⟨2, 1, none⟩] := by
    norm_num [SignalProcessor.filterByConfidence, List.filter, confFalsy1]
  have hro : SignalProcessor.removeOutliers [⟨1, 0, none⟩, ⟨2, 1, none⟩]
      = [⟨1, 0, none⟩, ⟨2, 1, none⟩] := by
    rw [SignalProcessor.removeOutliers, if_pos (by norm_num)]
  have hmaf : SignalProcessor.applyMovingAverageFilter [⟨1, 0, none⟩, ⟨2, 1, none⟩]
      = [⟨1, 1/2, none⟩, ⟨2, 1/2, none⟩] := by
    rw [SignalProcessor.applyMovingAverageFilter, if_neg (by simp)]
    norm_num [List.range_succ]
  have hpp : SignalProcessor.processPoints [⟨1, 0, none⟩, ⟨2, 1, none⟩]
      = [⟨1, 1/2, none⟩, ⟨2, 1/2, none⟩] := by
    rw [SignalProcessor.processPoints, if_neg (by simp)]
    simp only [hfc, hro, hmaf]
    norm_num [SignalProcessor.normalizeX, min_def, max_def]
  rw [SignalProcessor.samplesData, hpp]
  norm_num [confFalsyNull]

end ProcessorLemmas

end Theorems

end EyeTracking
